import Mathlib

/-!
Verification development for the breakingchange repository
(src/scripts/watch.py and src/scripts/build_site.py).

The Python code is shallowly embedded below.  Strings are modelled as Lean
Strings (lists of unicode scalar values, matching Python str for the inputs
considered); the Python standard library routines the scripts rely on
(str.splitlines, str.split, difflib.SequenceMatcher.quick_ratio,
difflib.unified_diff, re.search for the fixed effective-date pattern,
html.escape, time.gmtime/strftime) are ported faithfully from their CPython
sources, restricted where noted in the doc comments.  Python floats are
modelled as exact rationals: the only ratio threshold, 0.995, is compared
against values that in every theorem below are far from the rounding error
of binary64, so the model and the float computation agree there.
-/

namespace BreakingChange

/-- The characters Python str.splitlines treats as line boundaries
(CPython unicodeobject: LF, CR, VT, FF, FS, GS, RS, NEL, LS, PS). -/
def isLineBoundary (c : Char) : Bool :=
  c = '\x0a' || c = '\x0d' || c = '\x0b' || c = '\x0c' ||
  c = '\x1c' || c = '\x1d' || c = '\x1e' || c = '\u0085' ||
  c = ' ' || c = ' '

/-- The characters Python str.split and the regex whitespace class treat as
whitespace (str.isspace): ASCII space, TAB..CR, FS..US, plus the Unicode
space-property characters. -/
def isPyWs (c : Char) : Bool :=
  c = ' ' || ('\x09' ≤ c && c ≤ '\x0d') || ('\x1c' ≤ c && c ≤ '\x1f') ||
  c = '\u0085' || c = ' ' || c = ' ' ||
  (' ' ≤ c && c ≤ ' ') || c = ' ' || c = ' ' ||
  c = ' ' || c = ' ' || c = '　'

/-- Python str.splitlines on a list of characters (keepends=False).
CRLF counts as a single boundary; a trailing boundary opens no new line. -/
def splitlinesAux : List Char → List Char → List (List Char)
  | [], acc => if acc = [] then [] else [acc.reverse]
  | '\x0d' :: '\x0a' :: rest2, acc => acc.reverse :: splitlinesAux rest2 []
  | c :: rest, acc =>
    if c = '\x0d' then acc.reverse :: splitlinesAux rest []
    else if isLineBoundary c then acc.reverse :: splitlinesAux rest []
    else splitlinesAux rest (c :: acc)

/-- Python str.splitlines, producing the list of line strings. -/
def pySplitlines (s : String) : List String :=
  (splitlinesAux s.data []).map (fun l => ⟨l⟩)

/-- Python str.split() with no argument: split on whitespace runs, no empty
pieces. -/
def pySplitAux : List Char → List Char → List String
  | [], acc => if acc = [] then [] else [⟨acc.reverse⟩]
  | c :: rest, acc =>
    if isPyWs c then
      if acc = [] then pySplitAux rest []
      else ⟨acc.reverse⟩ :: pySplitAux rest []
    else pySplitAux rest (c :: acc)

/-- Python str.split() on a String. -/
def pySplit (s : String) : List String := pySplitAux s.data []

/-- One character prepended to a string; models the "+"/"-"/" " marker that
difflib puts in front of a content line. -/
def consStr (c : Char) (s : String) : String := ⟨c :: s.data⟩

/-- List-level startswith: startsL p l is true iff p is an initial segment
of l (models Python str.startswith). -/
def startsL : List Char → List Char → Bool
  | [], _ => true
  | _ :: _, [] => false
  | c :: cs, d :: ds => c = d && startsL cs ds

/-- Python str.startswith on Strings. -/
def pyStarts (s pre : String) : Bool := startsL pre.data s.data

/-- List-level substring containment (models the Python "in" operator on
strings). -/
def subStrL (needle : List Char) : List Char → Bool
  | [] => startsL needle []
  | c :: t => startsL needle (c :: t) || subStrL needle t

/-- Python "k in text" substring test on Strings. -/
def pyContains (text k : String) : Bool := subStrL k.data text.data

/-- Decimal digit character for a value below ten. -/
def decDigit (n : Nat) : Char := "0123456789".data.getD (n % 10) '0'

/-- Decimal rendering of a natural number, most significant digit first
(models the decimal formatting Python uses in the unified-diff hunk
headers and in strftime).  The first argument is fuel for the division
loop; a fuel of n is enough, since the value shrinks by a factor of ten
each step. -/
def natToDecAux : Nat → Nat → List Char → List Char
  | 0, n, acc => decDigit n :: acc
  | fuel + 1, n, acc =>
    if n < 10 then decDigit n :: acc
    else natToDecAux fuel (n / 10) (decDigit (n % 10) :: acc)

/-- Decimal rendering of a natural number. -/
def natToDec (n : Nat) : List Char := natToDecAux n n []

/-- A character that can occur in a formatted hunk range: a digit or a
comma. -/
def isRangeChar (c : Char) : Bool := ('0' ≤ c && c ≤ '9') || c = ','

/-- Join a list of strings with a newline between consecutive elements, at
the character level (models the Python join of lines on a newline). -/
def joinNLChars : List String → List Char
  | [] => []
  | [l] => l.data
  | l :: l2 :: ls => l.data ++ '\x0a' :: joinNLChars (l2 :: ls)

/-- Python newline-join of a list of lines. -/
def joinNL (ls : List String) : String := ⟨joinNLChars ls⟩

/-- Collapse every run of whitespace into a single space: the effect of the
re.sub whitespace-run replacement inside fetch_text.  The flag records
whether the previous character was part of a whitespace run. -/
def collapseWsAux (inWs : Bool) : List Char → List Char
  | [] => []
  | c :: rest =>
    if isPyWs c then
      if inWs then collapseWsAux true rest
      else ' ' :: collapseWsAux true rest
    else c :: collapseWsAux false rest

/-- re.sub of every whitespace run by a single space. -/
def collapseWs (l : List Char) : List Char := collapseWsAux false l

/-- Python str.strip() : remove leading and trailing whitespace. -/
def stripWs (l : List Char) : List Char :=
  ((l.dropWhile (fun c => isPyWs c)).reverse.dropWhile (fun c => isPyWs c)).reverse

/-- The text-normalization tail of fetch_text in src/scripts/watch.py:
collapse every whitespace run to a single space, then strip.  The HTTP
request and the HTML extraction that precede it are external I/O; this is
the function applied to whatever text they produce. -/
def fetch_text_normalize (s : String) : String := ⟨stripWs (collapseWs s.data)⟩

/-!
Port of the parts of CPython difflib used by meaningful_delta:
SequenceMatcher(a, b) with isjunk=None and autojunk=True, its quick_ratio,
and unified_diff(a, b, lineterm="") with the default fromfile/tofile/dates
(all empty) and n=3 lines of context.
-/

/-- The list of indices at which x occurs in b (ascending), as built by the
b2j dictionary of SequenceMatcher. -/
def b2jRaw (b : List String) (x : String) : List Nat :=
  (List.range b.length).filter (fun i => b.getD i "" = x)

/-- The autojunk rule: when b has at least 200 elements, an element seen in
more than one percent of them (strictly more than len/100 + 1 times) is
popular and is dropped from b2j.  isjunk is None in watch.py, so the junk
set itself is empty. -/
def isPopular (b : List String) (x : String) : Bool :=
  decide (200 ≤ b.length) && decide (b.length / 100 + 1 < b.count x)

/-- b2j lookup with the autojunk filtering applied. -/
def b2j (b : List String) (x : String) : List Nat :=
  if isPopular b x then [] else b2jRaw b x

/-- Inner loop of find_longest_match for one row i: walk the candidate
j-positions (ascending); j below blo is skipped, j at or past bhi breaks;
otherwise the diagonal length k is extended and the best block updated.
j2len maps a j-column to the diagonal length of the previous row (0 when
absent; a query at column -1 in Python is the absent case j = 0 here).
Returns the new row map together with the updated best block. -/
def dpInner (blo bhi i : Nat) (j2len : Nat → Nat) :
    List Nat → (Nat → Nat) → (Nat × Nat × Nat) → ((Nat → Nat) × (Nat × Nat × Nat))
  | [], newj2len, best => (newj2len, best)
  | j :: js, newj2len, best =>
    if j < blo then dpInner blo bhi i j2len js newj2len best
    else if bhi ≤ j then (newj2len, best)
    else
      let k := (if j = 0 then 0 else j2len (j - 1)) + 1
      let newj2len2 := fun x => if x = j then k else newj2len x
      let best2 := if best.2.2 < k then (i + 1 - k, j + 1 - k, k) else best
      dpInner blo bhi i j2len js newj2len2 best2

/-- Outer loop of find_longest_match over the rows i in [alo, ahi). -/
def dpOuter (a : List String) (b2jf : String → List Nat) (blo bhi : Nat) :
    List Nat → (Nat → Nat) → (Nat × Nat × Nat) → (Nat × Nat × Nat)
  | [], _, best => best
  | i :: is, j2len, best =>
    let r := dpInner blo bhi i j2len (b2jf (a.getD i "")) (fun _ => 0) best
    dpOuter a b2jf blo bhi is r.1 r.2

/-- The while-loop of find_longest_match that extends the best block
backwards over equal non-junk elements (the junk set is empty here, so
only equality matters).  Structural recursion on besti, which the loop
decrements; at besti = 0 the guard alo < besti is false and the loop
stops, as in the source. -/
def extendBack (a b : List String) (alo blo : Nat) :
    Nat → Nat → Nat → Nat × Nat × Nat
  | 0, bestj, bestsize => (0, bestj, bestsize)
  | besti + 1, bestj, bestsize =>
    if alo < besti + 1 ∧ blo < bestj ∧ a.getD besti "" = b.getD (bestj - 1) "" then
      extendBack a b alo blo besti (bestj - 1) (bestsize + 1)
    else (besti + 1, bestj, bestsize)

/-- The while-loop of find_longest_match that extends the best block
forwards over equal non-junk elements.  The first argument is fuel: each
step needs besti + bestsize < ahi and grows bestsize, so a fuel of ahi is
never exhausted before the guard fails. -/
def extendFwdF (a b : List String) (ahi bhi : Nat) (besti bestj : Nat) :
    Nat → Nat → Nat
  | 0, bestsize => bestsize
  | fuel + 1, bestsize =>
    if besti + bestsize < ahi ∧ bestj + bestsize < bhi ∧
        a.getD (besti + bestsize) "" = b.getD (bestj + bestsize) "" then
      extendFwdF a b ahi bhi besti bestj fuel (bestsize + 1)
    else bestsize

/-- The forward extension loop with its sufficient fuel. -/
def extendFwd (a b : List String) (ahi bhi : Nat) (besti bestj bestsize : Nat) : Nat :=
  extendFwdF a b ahi bhi besti bestj (ahi + 1) bestsize

/-- SequenceMatcher.find_longest_match(alo, ahi, blo, bhi).  The two junk
extension loops of the Python source never run because isjunk is None and
the junk set is empty, so they are omitted. -/
def findLongestMatch (a b : List String) (alo ahi blo bhi : Nat) : Nat × Nat × Nat :=
  let best := dpOuter a (b2j b) blo bhi (List.range' alo (ahi - alo)) (fun _ => 0) (alo, blo, 0)
  let e := extendBack a b alo blo best.1 best.2.1 best.2.2
  let k := extendFwd a b ahi bhi e.1 e.2.1 e.2.2
  (e.1, e.2.1, k)

/-- The queue loop of get_matching_blocks.  Python pushes the two
subintervals on a stack and sorts the collected blocks at the end; every
block found in the left subinterval is strictly below the middle block and
every block in the right subinterval strictly above it, so the in-order
recursion below produces exactly that sorted list.  Each recursive call
strictly shrinks the interval (the middle block is nonempty), so a fuel of
total length plus one is never exhausted. -/
def matchingBlocksAux (a b : List String) :
    Nat → Nat → Nat → Nat → Nat → List (Nat × Nat × Nat)
  | 0, _, _, _, _ => []
  | fuel + 1, alo, ahi, blo, bhi =>
    let m := findLongestMatch a b alo ahi blo bhi
    if m.2.2 = 0 then []
    else
      (if alo < m.1 ∧ blo < m.2.1 then matchingBlocksAux a b fuel alo m.1 blo m.2.1
       else []) ++
      m ::
      (if m.1 + m.2.2 < ahi ∧ m.2.1 + m.2.2 < bhi then
        matchingBlocksAux a b fuel (m.1 + m.2.2) ahi (m.2.1 + m.2.2) bhi
       else [])

/-- The final loop of get_matching_blocks that merges adjacent blocks
(i1+k1 == i2 and j1+k1 == j2) into one. -/
def mergeAdjacent : Nat → Nat → Nat → List (Nat × Nat × Nat) → List (Nat × Nat × Nat)
  | i1, j1, k1, [] => if k1 ≠ 0 then [(i1, j1, k1)] else []
  | i1, j1, k1, (i2, j2, k2) :: rest =>
    if i1 + k1 = i2 ∧ j1 + k1 = j2 then mergeAdjacent i1 j1 (k1 + k2) rest
    else if k1 ≠ 0 then (i1, j1, k1) :: mergeAdjacent i2 j2 k2 rest
    else mergeAdjacent i2 j2 k2 rest

/-- SequenceMatcher.get_matching_blocks, including the terminating
(len(a), len(b), 0) sentinel. -/
def getMatchingBlocks (a b : List String) : List (Nat × Nat × Nat) :=
  mergeAdjacent 0 0 0
      (matchingBlocksAux a b (a.length + b.length + 1) 0 a.length 0 b.length) ++
    [(a.length, b.length, 0)]

/-- The four opcode tags of SequenceMatcher.get_opcodes. -/
inductive DTag
  | replace
  | delete
  | insert
  | equal
deriving DecidableEq

/-- One opcode (tag, a1, a2, b1, b2) of get_opcodes. -/
structure Opcode where
  tag : DTag
  a1 : Nat
  a2 : Nat
  b1 : Nat
  b2 : Nat
deriving DecidableEq

/-- The loop of get_opcodes over the matching blocks, carrying the current
positions i and j. -/
def opcodesFromBlocks : Nat → Nat → List (Nat × Nat × Nat) → List Opcode
  | _, _, [] => []
  | i, j, (ai, bj, size) :: rest =>
    (if i < ai ∧ j < bj then [⟨DTag.replace, i, ai, j, bj⟩]
     else if i < ai then [⟨DTag.delete, i, ai, j, bj⟩]
     else if j < bj then [⟨DTag.insert, i, ai, j, bj⟩]
     else []) ++
    (if size ≠ 0 then [⟨DTag.equal, ai, ai + size, bj, bj + size⟩] else []) ++
    opcodesFromBlocks (ai + size) (bj + size) rest

/-- SequenceMatcher.get_opcodes. -/
def getOpcodes (a b : List String) : List Opcode :=
  opcodesFromBlocks 0 0 (getMatchingBlocks a b)

/-- get_grouped_opcodes: widen the first opcode when it is an equal run
(keep only n=3 context lines before the first change). -/
def adjustFirst : List Opcode → List Opcode
  | [] => []
  | op :: rest =>
    if op.tag = DTag.equal then
      { op with a1 := max op.a1 (op.a2 - 3), b1 := max op.b1 (op.b2 - 3) } :: rest
    else op :: rest

/-- get_grouped_opcodes: trim the last opcode when it is an equal run. -/
def adjustLast : List Opcode → List Opcode
  | [] => []
  | [op] =>
    if op.tag = DTag.equal then
      [{ op with a2 := min op.a2 (op.a1 + 3), b2 := min op.b2 (op.b1 + 3) }]
    else [op]
  | op :: rest => op :: adjustLast rest

/-- A group consisting of a single equal opcode (such a group is not
yielded by get_grouped_opcodes). -/
def isSingleEqual : List Opcode → Bool
  | [op] => op.tag = DTag.equal
  | _ => false

/-- The grouping loop of get_grouped_opcodes with n=3: a long equal run
(more than 2n lines) closes the current group, keeping n context lines on
each side. -/
def groupLoop : List Opcode → List Opcode → List (List Opcode)
  | [], group => if group.isEmpty || isSingleEqual group then [] else [group]
  | op :: rest, group =>
    if op.tag = DTag.equal ∧ 6 < op.a2 - op.a1 then
      (group ++ [{ op with a2 := min op.a2 (op.a1 + 3), b2 := min op.b2 (op.b1 + 3) }]) ::
        groupLoop rest [{ op with a1 := max op.a1 (op.a2 - 3), b1 := max op.b1 (op.b2 - 3) }]
    else groupLoop rest (group ++ [op])

/-- SequenceMatcher.get_grouped_opcodes with n=3 (the unified_diff
default). -/
def getGroupedOpcodes (a b : List String) : List (List Opcode) :=
  let codes := getOpcodes a b
  let codes := if codes = [] then [⟨DTag.equal, 0, 1, 0, 1⟩] else codes
  groupLoop (adjustLast (adjustFirst codes)) []

/-- difflib._format_range_unified. -/
def fmtRangeChars (start stop : Nat) : List Char :=
  let beginning := start + 1
  let length := stop - start
  if length = 1 then natToDec beginning
  else natToDec (if length = 0 then beginning - 1 else beginning) ++ ',' :: natToDec length

/-- A unified-diff hunk header line for the two formatted ranges. -/
def hunkLine (f1 f2 : List Char) : String :=
  ⟨'@' :: '@' :: ' ' :: '-' :: (f1 ++ ' ' :: '+' :: (f2 ++ [' ', '@', '@']))⟩

/-- Python slice l[i:j] for the index ranges difflib produces. -/
def sliceL (l : List String) (i j : Nat) : List String := (l.drop i).take (j - i)

/-- The lines unified_diff emits for one opcode: context lines carry a
space marker, deleted lines a minus, inserted lines a plus. -/
def renderOpcode (la lb : List String) (op : Opcode) : List String :=
  match op.tag with
  | DTag.equal => (sliceL la op.a1 op.a2).map (consStr ' ')
  | DTag.replace =>
      (sliceL la op.a1 op.a2).map (consStr '-') ++ (sliceL lb op.b1 op.b2).map (consStr '+')
  | DTag.delete => (sliceL la op.a1 op.a2).map (consStr '-')
  | DTag.insert => (sliceL lb op.b1 op.b2).map (consStr '+')

/-- The lines unified_diff emits for one group: the hunk header built from
the first and last opcode, then the rendered opcodes. -/
def renderGroup (la lb : List String) (g : List Opcode) : List String :=
  let a1 := match g.head? with | some op => op.a1 | none => 0
  let a2 := match g.getLast? with | some op => op.a2 | none => 0
  let b1 := match g.head? with | some op => op.b1 | none => 0
  let b2 := match g.getLast? with | some op => op.b2 | none => 0
  hunkLine (fmtRangeChars a1 a2) (fmtRangeChars b1 b2) ::
    (g.map (renderOpcode la lb)).flatten

/-- difflib.unified_diff(a, b, lineterm="") with empty file names and
dates: the two header lines are emitted once, before the first group, and
only when there is at least one group. -/
def unifiedDiffLines (la lb : List String) : List String :=
  match getGroupedOpcodes la lb with
  | [] => []
  | gs => "--- " :: "+++ " :: (gs.map (renderGroup la lb)).flatten

/-- difflib._calculate_ratio, with the Python float modelled as an exact
rational. -/
def calcRatio (nmatches length : Nat) : ℚ :=
  if length = 0 then 1 else (2 * nmatches : ℚ) / length

/-- The numb value of one quick_ratio step: the remaining availability of
the element, defaulting to its full count in b (Python dict get with
default). -/
def qrNumb (fullb : List String) (avail : String → Option Int) (elt : String) : Int :=
  match avail elt with
  | some n => n
  | none => (fullb.count elt : Int)

/-- One step of the quick_ratio loop over the elements of a: avail tracks
how many matches remain available for an element, and the match counter
grows while the remaining availability is positive. -/
def qrStep (fullb : List String) (st : (String → Option Int) × Nat) (elt : String) :
    (String → Option Int) × Nat :=
  (fun x => if x = elt then some (qrNumb fullb st.1 elt - 1) else st.1 x,
   if 0 < qrNumb fullb st.1 elt then st.2 + 1 else st.2)

/-- The match count computed by SequenceMatcher.quick_ratio. -/
def qrMatches (a b : List String) : Nat :=
  (a.foldl (qrStep b) ((fun _ => none), 0)).2

/-- SequenceMatcher.quick_ratio over the two word lists. -/
def quickRatio (a b : List String) : ℚ :=
  calcRatio (qrMatches a b) (a.length + b.length)

/-- The threshold test ratio < 0.995 of meaningful_delta, written as the
equivalent integer cross-multiplication so that it is kernel-computable
(rational normalization is not); the lemma quickRatioLtCutoff_iff below
proves it equal to the rational comparison. -/
def quickRatioLtCutoff (a b : List String) : Bool :=
  decide (2000 * qrMatches a b < 995 * (a.length + b.length))

/-- The per-line filter meaningful_delta counts: lines starting with "+" or
"-" but not with "+++" or "---". -/
def codeDiffFilter (l : String) : Bool :=
  (pyStarts l "+" || pyStarts l "-") && !(pyStarts l "+++" || pyStarts l "---")

/-- The magnitude computation of meaningful_delta over the rendered diff
text. -/
def magnitudeOf (diffText : String) : Nat :=
  (pySplitlines diffText).countP codeDiffFilter

/-- The diff text meaningful_delta builds: unified_diff over the two texts
split on line boundaries, joined with newlines. -/
def unifiedDiffText (a b : String) : String :=
  joinNL (unifiedDiffLines (pySplitlines a) (pySplitlines b))

/-- meaningful_delta(a, b) from src/scripts/watch.py: the changed flag, the
rendered diff text and the magnitude.  The flag is the conjunction of the
three threshold tests of the source: quick_ratio below 0.995, diff text
longer than 120 characters, magnitude above 8. -/
def meaningful_delta (a b : String) : Bool × String × Nat :=
  (quickRatioLtCutoff (pySplit a) (pySplit b) &&
     decide (120 < (unifiedDiffText a b).length) &&
     decide (8 < magnitudeOf (unifiedDiffText a b)),
   unifiedDiffText a b,
   magnitudeOf (unifiedDiffText a b))

/-!
Port of classify and the post_slack colour table from src/scripts/watch.py.
The effective-date extraction is a backtracking matcher for the one fixed
pattern the source compiles:
(effective|starts|applies) whitespace+ (on|from)? whitespace*
(Month DD, YYYY | YYYY-MM-DD), case-insensitive, leftmost match, returning
group 3.  Letter classes are modelled on the ASCII range (str.lower and
the IGNORECASE ranges agree with full Unicode behaviour on the ASCII
inputs of every theorem below).
-/

/-- ASCII letter test (the character classes of the effective-date pattern
under IGNORECASE). -/
def asciiLetterB (c : Char) : Bool :=
  ('A' ≤ c && c ≤ 'Z') || ('a' ≤ c && c ≤ 'z')

/-- ASCII digit test. -/
def asciiDigitB (c : Char) : Bool := '0' ≤ c && c ≤ '9'

/-- Case-insensitive character comparison (ASCII model of IGNORECASE). -/
def ciEq (c d : Char) : Bool := c.toLower = d.toLower

/-- Match a literal case-insensitively at the head of the input and return
the remaining input. -/
def matchLit : List Char → List Char → Option (List Char)
  | [], s => some s
  | _ :: _, [] => none
  | c :: cs, d :: ds => if ciEq c d then matchLit cs ds else none

/-- The remainders after consuming zero or more whitespace characters,
longest consumption first (greedy star with backtracking). -/
def wsRests : List Char → List (List Char)
  | [] => [[]]
  | c :: t => if isPyWs c then wsRests t ++ [c :: t] else [c :: t]

/-- The remainders after consuming one or more whitespace characters,
longest first (greedy plus with backtracking). -/
def wsPlusRests : List Char → List (List Char)
  | [] => []
  | c :: t => if isPyWs c then wsRests t else []

/-- The remainders after consuming zero or more letters, longest first. -/
def letterRests : List Char → List (List Char)
  | [] => [[]]
  | c :: t => if asciiLetterB c then letterRests t ++ [c :: t] else [c :: t]

/-- The remainders after consuming one or more letters, longest first. -/
def letterPlusRests : List Char → List (List Char)
  | [] => []
  | c :: t => if asciiLetterB c then letterRests t else []

/-- The remainders after consuming one or two digits, two first (greedy
bounded repetition). -/
def d12Rests : List Char → List (List Char)
  | [] => []
  | [c1] => if asciiDigitB c1 then [[]] else []
  | c1 :: c2 :: t =>
    if asciiDigitB c1 then
      if asciiDigitB c2 then [t, c2 :: t] else [c2 :: t]
    else []

/-- The remainder after exactly two digits. -/
def d2Rest : List Char → Option (List Char)
  | c1 :: c2 :: t => if asciiDigitB c1 && asciiDigitB c2 then some t else none
  | _ => none

/-- The remainder after exactly four digits. -/
def d4Rest : List Char → Option (List Char)
  | c1 :: c2 :: c3 :: c4 :: t =>
    if asciiDigitB c1 && asciiDigitB c2 && asciiDigitB c3 && asciiDigitB c4 then some t
    else none
  | _ => none

/-- The Month DD, YYYY alternative of the date group: a letter, one or more
letters, whitespace, one or two digits, a comma, optional whitespace, four
digits. -/
def dateMonthRest : List Char → Option (List Char)
  | [] => none
  | c :: t =>
    if asciiLetterB c then
      (letterPlusRests t).findSome? (fun r1 =>
        (wsPlusRests r1).findSome? (fun r2 =>
          (d12Rests r2).findSome? (fun r3 =>
            match r3 with
            | ',' :: r4 => (wsRests r4).findSome? (fun r5 => d4Rest r5)
            | _ => none)))
    else none

/-- The YYYY-MM-DD alternative of the date group. -/
def dateIsoRest (s : List Char) : Option (List Char) :=
  (d4Rest s).bind (fun r1 =>
    match r1 with
    | '-' :: r2 =>
      (d2Rest r2).bind (fun r3 =>
        match r3 with
        | '-' :: r4 => d2Rest r4
        | _ => none)
    | _ => none)

/-- The date group: the Month alternative is tried before the ISO one, as
in the pattern. -/
def dateRest (s : List Char) : Option (List Char) :=
  match dateMonthRest s with
  | some r => some r
  | none => dateIsoRest s

/-- The optional (on|from) group: the alternatives in pattern order, then
the empty match. -/
def optOnFrom (s : List Char) : List (List Char) :=
  (match matchLit ['o', 'n'] s with | some r => [r] | none => []) ++
  (match matchLit ['f', 'r', 'o', 'm'] s with | some r => [r] | none => []) ++ [s]

/-- One attempt of the effective-date pattern at a given position: returns
the input at the start of group 3 together with the input after it. -/
def effAttempt (s : List Char) : Option (List Char × List Char) :=
  ["effective".data, "starts".data, "applies".data].findSome? (fun kw =>
    (matchLit kw s).bind (fun r1 =>
      (wsPlusRests r1).findSome? (fun r2 =>
        (optOnFrom r2).findSome? (fun r3 =>
          (wsRests r3).findSome? (fun r4 =>
            (dateRest r4).map (fun r5 => (r4, r5)))))))

/-- re.search of the effective-date pattern over the after text: try each
start position from the left, and return the text of group 3 of the first
match. -/
def searchEffective (after : String) : Option String :=
  (after.data.tails).findSome? (fun s =>
    (effAttempt s).map (fun p => ⟨p.1.take (p.1.length - p.2.length)⟩))

/-- Python str.lower, modelled character-wise on the ASCII range. -/
def pyLower (s : String) : String := ⟨s.data.map Char.toLower⟩

/-- The CATS keyword table of src/scripts/watch.py, in declaration order
(Python dict preserves insertion order). -/
def CATS : List (String × List String) :=
  [("pricing", ["price", "pricing", "fee", "charge", "cost", "tier", "billing"]),
   ("data_usage", ["data", "collect", "share", "retain", "store", "process", "retention"]),
   ("ip_ai_training", ["train", "training", "ai", "model", "license", "ip"]),
   ("deprecation", ["deprecat", "sunset", "remove", "eol", "replacement", "migrate"]),
   ("rate_limits", ["rate limit", "quota", "rpm", "rps", "requests per", "throughput"]),
   ("acceptable_use", ["prohibited", "abuse", "spam", "illegal", "malware", "harmful"]),
   ("privacy", ["privacy", "gdpr", "ccpa", "pii", "data subject", "controller", "processor"])]

/-- Join a list of strings with a single space between consecutive
elements (Python space-join). -/
def joinSpChars : List String → List Char
  | [] => []
  | [l] => l.data
  | l :: ls => l.data ++ ' ' :: joinSpChars ls

/-- Python s[1:] : the string without its first character. -/
def pyTail (s : String) : String := ⟨s.data.drop 1⟩

/-- The changed_text of classify: the diff lines that start with a plus or
minus marker (note that this includes the two file-header lines), each
stripped of its first character, joined by spaces. -/
def changedTextOf (diffText : String) : String :=
  ⟨joinSpChars (((pySplitlines diffText).filter
      (fun l => pyStarts l "+" || pyStarts l "-")).map pyTail)⟩

/-- The lowercased search text classify scans for keywords: the after text,
a space, and the changed diff text. -/
def searchTextOf (after diffText : String) : String :=
  pyLower (after ++ " " ++ changedTextOf diffText)

/-- The number of keywords of one category that occur in the search text
(each keyword counted once). -/
def catHits (text : String) (kws : List String) : Nat :=
  kws.countP (fun k => pyContains text k)

/-- One step of the category loop of classify: take a category only when
its hit count strictly exceeds the best so far. -/
def catStep (text : String) (best : String × Nat) (p : String × List String) :
    String × Nat :=
  let hits := catHits text p.2
  if best.2 < hits then (p.1, hits) else best

/-- The category loop of classify, starting from ("privacy", 0). -/
def bestCat (text : String) : String × Nat :=
  CATS.foldl (catStep text) ("privacy", 0)

/-- The severity ladder of classify over the winning hit count. -/
def sevOf (hits : Nat) : String :=
  if 5 ≤ hits then "critical"
  else if 3 ≤ hits then "high"
  else if 2 ≤ hits then "medium"
  else "low"

/-- Python str.title restricted to ASCII letters: a letter is uppercased
when the previous character is not a letter, lowercased otherwise. -/
def pyTitleAux : Bool → List Char → List Char
  | _, [] => []
  | prevAlpha, c :: rest =>
    if asciiLetterB c then
      (if prevAlpha then c.toLower else c.toUpper) :: pyTitleAux true rest
    else c :: pyTitleAux false rest

/-- Python str.title on a String. -/
def pyTitle (s : String) : String := ⟨pyTitleAux false s.data⟩

/-- The record classify returns: category, severity, the one-line summary,
and the optional effective date. -/
structure ClassifyOut where
  category : String
  severity : String
  tldr : String
  effective_date : Option String
deriving DecidableEq, Repr

/-- classify(before, after, diff_text) from src/scripts/watch.py.  The
before argument is accepted and ignored, as in the source. -/
def classify (before after diffText : String) : ClassifyOut :=
  let text := searchTextOf after diffText
  let best := bestCat text
  { category := best.1
    severity := sevOf best.2
    tldr := pyTitle ((best.1).replace "_" " ") ++ " change detected"
    effective_date := searchEffective after }

/-- The four-entry colour table of post_slack; a severity outside the table
is a Python KeyError, modelled as none. -/
def slackColor (severity : String) : Option String :=
  if severity = "low" then some "#8ea6c9"
  else if severity = "medium" then some "#f2c744"
  else if severity = "high" then some "#f29f05"
  else if severity = "critical" then some "#d73a49"
  else none

/-!
Model of the per-source body of run() in src/scripts/watch.py
(lines 107 to 129): the snapshot read, the meaningful-change gate, and the
three recording effects in their source order — snapshot overwrite first,
then the diff-artifact write, then the event-log append.
-/

/-- One entry of the source registry (watchers.yml). -/
structure SourceRec where
  vendor : String
  slug : String
  typ : String
  url : String
deriving DecidableEq, Repr

/-- The modelled fields of one event record appended to events.jsonl.  The
timestamp and the derived diff filename are environment-supplied I/O
values (time.time and a sha1 of it) and are not modelled; every
data-derived field is kept. -/
structure EventRec where
  vendor : String
  slug : String
  typ : String
  url : String
  magnitude : Nat
  category : String
  severity : String
  tldr : String
  effective_date : Option String
deriving DecidableEq, Repr

/-- The persistent state touched by run() for one (slug, type) key: the
snapshot store entry, the diff-artifact store and the event log. -/
structure PipelineState where
  snap : Option String
  diffs : List String
  events : List EventRec
deriving DecidableEq, Repr

/-- The body of the run() loop for one source, given the normalized text
the fetch produced and a flag simulating whether the diff-artifact write
raises.  The source order of effects is kept: when the change is
meaningful the snapshot is overwritten first; if the diff write then
fails, the uncaught exception ends the iteration (and the run), so the
event append and the notifications never happen, but the snapshot
overwrite has already taken place. -/
def processSource (st : PipelineState) (src : SourceRec) (after : String)
    (diffWriteFails : Bool) : PipelineState :=
  let before := match st.snap with | some t => t | none => ""
  let r := meaningful_delta before after
  if r.1 = false then st
  else
    let st1 := { st with snap := some after }
    if diffWriteFails then st1
    else
      let meta := classify before after r.2.1
      { st1 with
        diffs := st1.diffs ++ [r.2.1]
        events := st1.events ++
          [{ vendor := src.vendor, slug := src.slug, typ := src.typ, url := src.url,
             magnitude := r.2.2, category := meta.category, severity := meta.severity,
             tldr := meta.tldr, effective_date := meta.effective_date }] }

/-!
Model of src/scripts/build_site.py: the event records read from
events.jsonl, the in-place descending sort by timestamp, the copy loop
over the first 200 sorted events, and the table rows rendered from the
sorted list.
-/

/-- The fields of one event line that build_site.py reads. -/
structure SiteEvent where
  ts : Nat
  vendor : String
  typ : String
  severity : String
  url : String
  diff_file : String
deriving DecidableEq, Repr

/-- Insert an event into a timestamp-descending list, before any event of
equal timestamp (the element being inserted precedes the list elements in
the original order, so this is the stable descending sort of Python
list.sort with reverse=True). -/
def insertDesc (e : SiteEvent) : List SiteEvent → List SiteEvent
  | [] => [e]
  | x :: xs => if x.ts ≤ e.ts then e :: x :: xs else x :: insertDesc e xs

/-- events.sort(key=ts, reverse=True): stable descending sort. -/
def sortTsDesc : List SiteEvent → List SiteEvent
  | [] => []
  | x :: xs => insertDesc x (sortTsDesc xs)

/-- html.escape with quote=True, character by character. -/
def htmlEscapeChar (c : Char) : List Char :=
  if c = '&' then "&amp;".data
  else if c = '<' then "&lt;".data
  else if c = '>' then "&gt;".data
  else if c = '\"' then "&quot;".data
  else if c = '\x27' then "&#x27;".data
  else [c]

/-- html.escape on a String. -/
def htmlEscape (s : String) : String := ⟨(s.data.map htmlEscapeChar).flatten⟩

/-- Leap-year rule of the proleptic Gregorian calendar (time.gmtime). -/
def isLeap (y : Nat) : Bool := decide ((y % 4 = 0 ∧ y % 100 ≠ 0) ∨ y % 400 = 0)

/-- Days in a calendar year. -/
def daysInYear (y : Nat) : Nat := if isLeap y then 366 else 365

/-- Resolve a day count since 1970-01-01 into a year and the remaining day
offset inside that year.  The first argument is fuel: every step removes
at least 365 days, so a fuel of days + 1 is never exhausted. -/
def yearFromDaysF : Nat → Nat → Nat → Nat × Nat
  | 0, y, days => (y, days)
  | fuel + 1, y, days =>
    if daysInYear y ≤ days then yearFromDaysF fuel (y + 1) (days - daysInYear y)
    else (y, days)

/-- The year resolution loop with its sufficient fuel. -/
def yearFromDays (y days : Nat) : Nat × Nat := yearFromDaysF (days + 1) y days

/-- Month lengths of a year. -/
def monthLens (leap : Bool) : List Nat :=
  [31, if leap then 29 else 28, 31, 30, 31, 30, 31, 31, 30, 31, 30, 31]

/-- Resolve a day offset inside a year into a month number and the
zero-based day of that month. -/
def monthFromDays : List Nat → Nat → Nat → Nat × Nat
  | [], m, d => (m, d)
  | md :: rest, m, d => if md ≤ d then monthFromDays rest (m + 1) (d - md) else (m, d)

/-- A decimal number padded to two digits (strftime %m, %d, %H, %M). -/
def two (n : Nat) : List Char := if n < 10 then '0' :: natToDec n else natToDec n

/-- time.strftime of the pattern year-month-day hour:minute over
time.gmtime(ts), for the nonnegative integer timestamps watch.py
produces. -/
def gmtimeFmt (ts : Nat) : String :=
  let days := ts / 86400
  let secs := ts % 86400
  let yd := yearFromDays 1970 days
  let md := monthFromDays (monthLens (isLeap yd.1)) 1 yd.2
  ⟨natToDec yd.1 ++ '-' :: (two md.1 ++ '-' :: (two (md.2 + 1) ++ ' ' ::
    (two (secs / 3600) ++ ':' :: two ((secs % 3600) / 60))))⟩

/-- PurePosixPath(p).name for the slash-separated artifact paths watch.py
writes into events. -/
def pathName (s : String) : String :=
  match (s.splitOn "/").getLast? with
  | some t => t
  | none => s

/-- A single apostrophe (used around attribute values in the rendered
rows). -/
def sq : String := ⟨['\x27']⟩

/-- The row function of build_site.py: one table row for one event. -/
def rowHtml (e : SiteEvent) : String :=
  "<tr><td>" ++ gmtimeFmt e.ts ++ "</td><td>" ++ htmlEscape e.vendor ++ "</td><td>" ++
  htmlEscape e.typ ++ "</td><td>" ++ htmlEscape e.severity ++ "</td><td><a href=" ++
  sq ++ htmlEscape e.url ++ sq ++ ">source</a> · <a href=" ++ sq ++ "diffs/" ++
  pathName e.diff_file ++ sq ++ ">diff</a></td></tr>"

/-- The diff artifacts the copy loop of build_site.py publishes: the
referenced files of the first 200 events of the sorted list, when the
source file exists (file existence is the external predicate given as an
argument). -/
def copiedDiffNames (events : List SiteEvent) (srcExists : String → Bool) : List String :=
  (((sortTsDesc events).take 200).filter (fun e => srcExists e.diff_file)).map
    (fun e => pathName e.diff_file)

/-- The rows of the rendered HTML table: build_site.py joins row(e) for e
in events, where events is the whole sorted list — not only the first 200
entries the copy loop handled. -/
def siteRows (events : List SiteEvent) : List String :=
  (sortTsDesc events).map rowHtml

/-- The joined table-row text interpolated into the page template. -/
def siteTableRows (events : List SiteEvent) : String :=
  ⟨((siteRows events).map (fun r => r.data)).flatten⟩

/-!
Spec-side definition used by the refinement comparison of claim C4.
-/

/-- Modelled from the spec (Delta Evaluator, Testable Properties): the
count of lines in the returned diff artifact that are additions or
deletions, excluding only the two file-header lines.  This follows the
words of the spec and is compared against the magnitude the code
computes. -/
def specMagnitude (diffText : String) : Nat :=
  ((pySplitlines diffText).drop 2).countP (fun l => pyStarts l "+" || pyStarts l "-")

/-!
Concrete data for the scenario claims.
-/

/-- A source-registry entry used by the concrete recorder scenarios. -/
def sampleSource : SourceRec :=
  { vendor := "Acme", slug := "acme", typ := "tos", url := "https://example.com/tos" }

/-- A ten-line snapshot text (a meaningful change partner of tenLinesB). -/
def tenLinesA : String :=
  "a0 line\na1 line\na2 line\na3 line\na4 line\na5 line\na6 line\na7 line\na8 line\na9 line"

/-- A ten-line replacement text differing from tenLinesA on every line. -/
def tenLinesB : String :=
  "b0 line\nb1 line\nb2 line\nb3 line\nb4 line\nb5 line\nb6 line\nb7 line\nb8 line\nb9 line"

/-- The after text of end-to-end scenario 1. -/
def scenario1After : String := "Our pricing is $10/month."

/-- The before text of end-to-end scenario 2. -/
def scenario2Before : String := "Service is provided as-is."

/-- The after text of end-to-end scenario 2. -/
def scenario2After : String :=
  "Service is provided as-is. We may terminate your account for any reason without notice, effective January 1, 2025."

/-- Ten long words separated by vertical tabs: no newline character
anywhere, yet ten separate lines for splitlines. -/
def vtSeparated : String :=
  "word0xxxxxx\x0bword1xxxxxx\x0bword2xxxxxx\x0bword3xxxxxx\x0bword4xxxxxx\x0bword5xxxxxx\x0bword6xxxxxx\x0bword7xxxxxx\x0bword8xxxxxx\x0bword9xxxxxx"

/-- An event log of 201 events with distinct timestamps. -/
def manySiteEvents : List SiteEvent :=
  (List.range 201).map (fun i =>
    { ts := i, vendor := "Acme", typ := "tos", severity := "low",
      url := "https://example.com/tos", diff_file := "data/diffs/acme-tos.diff" })

/-!
Supporting lemmas.
-/

/-- Inserting into the descending list grows the length by one. -/
theorem length_insertDesc (e : SiteEvent) (l : List SiteEvent) :
    (insertDesc e l).length = l.length + 1 := by
  induction l with
  | nil => rfl
  | cons x xs ih =>
    unfold insertDesc
    split
    · simp
    · simp [ih]

/-- The stable descending sort preserves the length. -/
theorem length_sortTsDesc (l : List SiteEvent) : (sortTsDesc l).length = l.length := by
  induction l with
  | nil => rfl
  | cons x xs ih =>
    unfold sortTsDesc
    rw [length_insertDesc, ih]
    rfl

/-- The integer form of the similarity cutoff agrees with the rational
comparison ratio < 0.995. -/
theorem quickRatioLtCutoff_iff (a b : List String) :
    quickRatioLtCutoff a b = true ↔ quickRatio a b < 995 / 1000 := by
  unfold quickRatioLtCutoff quickRatio calcRatio
  rw [decide_eq_true_eq]
  rcases Nat.eq_zero_or_pos (a.length + b.length) with h | h
  · rw [if_pos h]
    constructor
    · intro hlt; omega
    · intro hq; exfalso; norm_num at hq
  · rw [if_neg (by omega)]
    have hpos : (0 : ℚ) < ((a.length + b.length : Nat) : ℚ) := by exact_mod_cast h
    rw [div_lt_div_iff₀ hpos (by norm_num : (0 : ℚ) < 1000)]
    constructor
    · intro h'
      have hq : (2000 : ℚ) * (qrMatches a b : ℚ) <
          995 * ((a.length : ℚ) + (b.length : ℚ)) := by exact_mod_cast h'
      push_cast
      linarith
    · intro h'
      have hq : (2000 : ℚ) * (qrMatches a b : ℚ) <
          995 * ((a.length : ℚ) + (b.length : ℚ)) := by push_cast at h'; linarith
      exact_mod_cast hq

/-- quick_ratio step invariant on identical sequences: processing the
remaining elements, with availability counts reflecting the processed
prefix, counts a match for every remaining element. -/
theorem qr_self_aux (l : List String) :
    ∀ (rest p : List String) (m : Nat), l = p ++ rest →
      (rest.foldl (qrStep l)
        ((fun x => if 0 < p.count x then some ((rest.count x : Int)) else none), m)).2 =
        m + rest.length := by
  intro rest
  induction rest with
  | nil => intro p m _; simp
  | cons e rest' ih =>
    intro p m h
    rw [List.foldl_cons]
    have hcons : (e :: rest').count e = rest'.count e + 1 :=
      List.count_cons_self e rest'
    have hnumb : qrNumb l
        (fun x => if 0 < p.count x then some (((e :: rest').count x : Int)) else none) e =
        ((rest'.count e : Int)) + 1 := by
      unfold qrNumb
      by_cases hp : 0 < p.count e
      · simp only [if_pos hp]
        rw [hcons]; push_cast; ring
      · simp only [if_neg hp]
        have hp0 : p.count e = 0 := by omega
        rw [h, List.count_append, hp0, hcons]
        push_cast; ring
    have key : qrStep l
        ((fun x => if 0 < p.count x then some (((e :: rest').count x : Int)) else none), m) e =
        ((fun x => if 0 < (p ++ [e]).count x then some ((rest'.count x : Int)) else none),
          m + 1) := by
      refine Prod.ext ?_ ?_
      · funext x
        show (if x = e then
              some (qrNumb l
                (fun y => if 0 < p.count y then some (((e :: rest').count y : Int)) else none)
                e - 1)
            else if 0 < p.count x then some (((e :: rest').count x : Int)) else none) =
            (if 0 < (p ++ [e]).count x then some ((rest'.count x : Int)) else none)
        rw [hnumb]
        by_cases hx : x = e
        · subst hx
          rw [if_pos rfl]
          have hxa : 0 < (p ++ [x]).count x := by
            rw [List.count_append, List.count_cons_self]
            omega
          rw [if_pos hxa]
          congr 1
          omega
        · rw [if_neg hx]
          have hxa : (p ++ [e]).count x = p.count x := by
            rw [List.count_append, List.count_cons_of_ne hx, List.count_nil]
            omega
          rw [hxa, List.count_cons_of_ne hx]

      · show (if 0 < qrNumb l
              (fun y => if 0 < p.count y then some (((e :: rest').count y : Int)) else none)
              e then m + 1 else m) = m + 1
        rw [hnumb]
        rw [if_pos (by positivity : (0 : Int) < (rest'.count e : Int) + 1)]
    rw [key]
    have h' : l = (p ++ [e]) ++ rest' := by rw [h]; simp
    have := ih (p ++ [e]) (m + 1) h'
    rw [this]
    simp [List.length_cons]
    omega

/-- quick_ratio counts every element as a match when the two sequences are
identical. -/
theorem qrMatches_self (l : List String) : qrMatches l l = l.length := by
  unfold qrMatches
  have h0 : ((fun _ : String => (none : Option Int)), 0) =
      ((fun x => if 0 < ([] : List String).count x then some ((l.count x : Int)) else none),
        (0 : Nat)) := by
    refine Prod.ext ?_ rfl
    funext x
    simp
  rw [h0]
  have := qr_self_aux l l [] 0 (by simp)
  rw [this]
  omega

/-- The category fold keeps its initial value when no category scores a
hit. -/
theorem foldl_catStep_const (text : String) :
    ∀ (l : List (String × List String)) (init : String × Nat),
      (∀ p ∈ l, catHits text p.2 = 0) → l.foldl (catStep text) init = init := by
  intro l
  induction l with
  | nil => intro init _; rfl
  | cons q rest ih =>
    intro init hq
    have hq0 : catHits text q.2 = 0 := hq q (List.mem_cons_self _ _)
    have hstep : catStep text init q = init := by
      simp [catStep, hq0]
    rw [List.foldl_cons, hstep]
    exact ih init (fun p hp => hq p (List.mem_cons_of_mem _ hp))

/-!
Claim theorems.
-/

/-- C3: meaningful_delta flags a change if and only if the word-token
similarity ratio is strictly below 0.995, the rendered diff text is
strictly longer than 120 characters, and the magnitude is strictly greater
than 8 changed lines. -/
theorem meaningful_delta_policy_iff (a b : String) :
    (meaningful_delta a b).1 = true ↔
      (quickRatio (pySplit a) (pySplit b) < 995 / 1000 ∧
       120 < (meaningful_delta a b).2.1.length ∧
       8 < (meaningful_delta a b).2.2) := by
  unfold meaningful_delta
  dsimp only
  rw [Bool.and_eq_true, Bool.and_eq_true, decide_eq_true_eq,
    decide_eq_true_eq, quickRatioLtCutoff_iff]
  rw [and_assoc]

/-- C7: on identical before and after texts, meaningful_delta reports no
meaningful change. -/
theorem meaningful_delta_refl_false (a : String) : (meaningful_delta a a).1 = false := by
  unfold meaningful_delta
  dsimp only
  have hm : qrMatches (pySplit a) (pySplit a) = (pySplit a).length := qrMatches_self _
  have hc : quickRatioLtCutoff (pySplit a) (pySplit a) = false := by
    unfold quickRatioLtCutoff
    rw [hm]
    exact decide_eq_false (by omega)
  rw [hc]
  simp

/-- C8: when no category keyword occurs in the search text, classify
returns the default category "privacy" and severity "low". -/
theorem classify_no_keyword_default (before after diffText : String)
    (h : ∀ p ∈ CATS, ∀ k ∈ p.2, pyContains (searchTextOf after diffText) k = false) :
    (classify before after diffText).category = "privacy" ∧
    (classify before after diffText).severity = "low" := by
  have hz : ∀ p ∈ CATS, catHits (searchTextOf after diffText) p.2 = 0 := by
    intro p hp
    unfold catHits
    rw [List.countP_eq_zero]
    intro k hk
    simp [h p hp k hk]
  have hb : bestCat (searchTextOf after diffText) = ("privacy", 0) :=
    foldl_catStep_const _ CATS _ hz
  constructor
  · show (bestCat (searchTextOf after diffText)).1 = "privacy"
    rw [hb]
  · show sevOf (bestCat (searchTextOf after diffText)).2 = "low"
    rw [hb]
    rfl

/-- Witness for C8 at a concrete keyword-free input. -/
theorem classify_no_keyword_default_witness :
    (classify "" "zq zz qq" "").category = "privacy" ∧
    (classify "" "zq zz qq" "").severity = "low" :=
  classify_no_keyword_default "" "zq zz qq" "" (by decide)

/-- C10: classify always returns one of the four severities of the
post_slack colour table, so the table lookup cannot fail. -/
theorem classify_severity_in_color_table (before after diffText : String) :
    ((classify before after diffText).severity = "low" ∨
     (classify before after diffText).severity = "medium" ∨
     (classify before after diffText).severity = "high" ∨
     (classify before after diffText).severity = "critical") ∧
    (slackColor (classify before after diffText).severity).isSome = true := by
  have h : (classify before after diffText).severity =
      sevOf (bestCat (searchTextOf after diffText)).2 := rfl
  rw [h]
  generalize (bestCat (searchTextOf after diffText)).2 = n
  unfold sevOf
  split_ifs <;> exact ⟨by tauto, by decide⟩


set_option maxRecDepth 100000 in
/-- C1: the recorder is not atomic.  When the diff-artifact write fails
after a meaningful change, no event is appended and no diff is stored, but
the snapshot for the key has already been overwritten with the new text,
although the spec requires it to be left unchanged. -/
theorem recorder_diff_write_failure_overwrites_snapshot :
    (processSource ⟨some tenLinesA, [], []⟩ sampleSource tenLinesB true).snap
        = some tenLinesB ∧
    tenLinesB ≠ tenLinesA ∧
    (processSource ⟨some tenLinesA, [], []⟩ sampleSource tenLinesB true).events = [] ∧
    (processSource ⟨some tenLinesA, [], []⟩ sampleSource tenLinesB true).diffs = [] := by
  decide

set_option maxRecDepth 100000 in
/-- C5 counterexample: on before = "" and after = "Our pricing is
$10/month." the delta is below the diff-length and magnitude thresholds,
so run() records nothing at all: no event, and not even a first snapshot. -/
theorem scenario1_no_event_recorded :
    (meaningful_delta "" scenario1After).1 = false ∧
    (processSource ⟨none, [], []⟩ sampleSource scenario1After false).events = [] ∧
    (processSource ⟨none, [], []⟩ sampleSource scenario1After false).snap = none := by
  decide

set_option maxRecDepth 100000 in
/-- C5 amended: scenario 1 creates no baseline event, because the
empty-to-nonempty transition still runs the same three-threshold policy
and this after text fails the length and magnitude thresholds; the
classifier on this pair does lean pricing. -/
theorem scenario1_amended :
    (meaningful_delta "" scenario1After).1 = false ∧
    processSource ⟨none, [], []⟩ sampleSource scenario1After false =
      ⟨none, [], []⟩ ∧
    (classify "" scenario1After (meaningful_delta "" scenario1After).2.1).category
      = "pricing" := by
  decide

set_option maxRecDepth 100000 in
/-- C6 counterexample: the scenario 2 evaluator result is not meaningful:
the normalized single-line texts give a two-line diff, below the
magnitude threshold. -/
theorem scenario2_not_meaningful :
    (meaningful_delta scenario2Before scenario2After).1 = false := by
  decide

set_option maxRecDepth 100000 in
/-- C6 amended: on scenario 2 the diff is long and the classifier extracts
effective_date "January 1, 2025" as claimed, but is_meaningful is false:
the magnitude is 2, not above 8, because the normalized texts are single
lines. -/
theorem scenario2_amended :
    (meaningful_delta scenario2Before scenario2After).1 = false ∧
    (meaningful_delta scenario2Before scenario2After).2.2 = 2 ∧
    120 < (meaningful_delta scenario2Before scenario2After).2.1.length ∧
    (classify scenario2Before scenario2After
        (meaningful_delta scenario2Before scenario2After).2.1).effective_date =
      some "January 1, 2025" := by
  decide

/-- C9: with 201 events in the log, build_site copies the diff artifacts
of only the 200 most recent events but renders a table row for every one
of the 201 events, so the table does not contain exactly the 200 selected
events. -/
theorem site_renders_all_events :
    (siteRows manySiteEvents).length = 201 ∧
    (copiedDiffNames manySiteEvents (fun _ => true)).length = 200 := by
  have hlen : manySiteEvents.length = 201 := by
    unfold manySiteEvents
    rw [List.length_map, List.length_range]
  constructor
  · unfold siteRows
    rw [List.length_map, length_sortTsDesc, hlen]
  · unfold copiedDiffNames
    rw [List.length_map]
    have hf : ∀ (l : List SiteEvent),
        l.filter (fun e => (fun (_ : String) => true) e.diff_file) = l := by
      intro l
      induction l with
      | nil => rfl
      | cons x xs ih => simp [List.filter, ih]
    rw [hf, List.length_take, length_sortTsDesc, hlen]
    omega

set_option maxRecDepth 100000 in
/-- C2 counterexample: a pair of texts neither of which contains a newline
character, for which the magnitude is 10 (not at most 2) and the change is
flagged meaningful: vertical tabs are not newlines, but they are line
boundaries for splitlines. -/
theorem no_newline_pair_flagged_meaningful :
    (¬ ('\x0a' ∈ "".data)) ∧ (¬ ('\x0a' ∈ vtSeparated.data)) ∧
    (meaningful_delta "" vtSeparated).2.2 = 10 ∧
    (meaningful_delta "" vtSeparated).1 = true := by
  decide

set_option maxRecDepth 100000 in
/-- C4 counterexample: for before = "--x" and after = "" the single
deleted content line renders as "---x", which the magnitude filter
excludes as if it were a file-header line: the code counts 0 although the
diff artifact contains one deletion line beyond the two header lines. -/
theorem magnitude_miscounts_dashed_content :
    (meaningful_delta "--x" "").2.2 = 0 ∧
    specMagnitude ((meaningful_delta "--x" "").2.1) = 1 ∧
    (meaningful_delta "--x" "").2.2 ≠ specMagnitude ((meaningful_delta "--x" "").2.1) := by
  decide

/-- A line-feed boundary closes the accumulated line. -/
theorem splitlinesAux_lf (rest acc : List Char) :
    splitlinesAux ('\x0a' :: rest) acc = acc.reverse :: splitlinesAux rest [] := rfl

/-- A non-boundary character is accumulated into the current line. -/
theorem splitlinesAux_nb (c : Char) (rest acc : List Char)
    (hc : isLineBoundary c = false) :
    splitlinesAux (c :: rest) acc = splitlinesAux rest (c :: acc) := by
  have hcr : ¬(c = '\x0d') := by
    intro hh
    subst hh
    simp [isLineBoundary] at hc
  rw [splitlinesAux.eq_3 acc c rest (fun r2 h1 _ => hcr h1)]
  rw [if_neg hcr, if_neg (by simp [hc])]

/-- splitlines of boundary-free input yields at most the one whole line. -/
theorem splitlinesAux_no_boundary :
    ∀ (chars acc : List Char), (∀ c ∈ chars, isLineBoundary c = false) →
      splitlinesAux chars acc =
        if acc = [] ∧ chars = [] then [] else [acc.reverse ++ chars] := by
  intro chars
  induction chars with
  | nil =>
    intro acc _
    rw [splitlinesAux.eq_1]
    by_cases ha : acc = [] <;> simp [ha]
  | cons c rest ih =>
    intro acc h
    have hc : isLineBoundary c = false := h c (List.mem_cons_self _ _)
    rw [splitlinesAux_nb c rest acc hc]
    rw [ih (c :: acc) (fun d hd => h d (List.mem_cons_of_mem _ hd))]
    rw [if_neg (by rintro ⟨h1, _⟩; exact List.cons_ne_nil _ _ h1)]
    rw [if_neg (by rintro ⟨_, h2⟩; exact List.cons_ne_nil _ _ h2)]
    simp [List.reverse_cons, List.append_assoc]

/-- A boundary-free string splits into itself (or nothing when empty). -/
theorem pySplitlines_no_boundary (s : String)
    (h : ∀ c ∈ s.data, isLineBoundary c = false) :
    pySplitlines s = if s.data = [] then [] else [s] := by
  unfold pySplitlines
  rw [splitlinesAux_no_boundary s.data [] h]
  by_cases hd : s.data = []
  · simp [hd]
  · rw [if_neg (by simp [hd]), if_neg hd]
    obtain ⟨d⟩ := s
    simp

/-- Splitting a boundary-free line followed by a newline emits that line. -/
theorem splitlinesAux_through :
    ∀ (line acc rest : List Char),
      (∀ c ∈ line, isLineBoundary c = false) →
      splitlinesAux (line ++ '\x0a' :: rest) acc =
        (acc.reverse ++ line) :: splitlinesAux rest [] := by
  intro line
  induction line with
  | nil =>
    intro acc rest _
    simp only [List.nil_append]
    rw [splitlinesAux_lf]
    simp
  | cons c line2 ih =>
    intro acc rest h
    have hc := h c (List.mem_cons_self _ _)
    rw [List.cons_append, splitlinesAux_nb c _ acc hc]
    rw [ih (c :: acc) rest (fun d hd => h d (List.mem_cons_of_mem _ hd))]
    simp [List.reverse_cons, List.append_assoc]

/-- splitlines inverts the newline join of nonempty boundary-free lines. -/
theorem pySplitlines_joinNL :
    ∀ (lines : List String),
      (∀ l ∈ lines, l.data ≠ []) →
      (∀ l ∈ lines, ∀ c ∈ l.data, isLineBoundary c = false) →
      pySplitlines (joinNL lines) = lines := by
  intro lines
  induction lines with
  | nil => intro _ _; rfl
  | cons l ls ih =>
    intro hne hb
    cases ls with
    | nil =>
      show pySplitlines (joinNL [l]) = [l]
      have h1 : joinNL [l] = ⟨l.data⟩ := rfl
      rw [h1]
      rw [pySplitlines_no_boundary ⟨l.data⟩ (hb l (List.mem_cons_self _ _))]
      rw [if_neg (hne l (List.mem_cons_self _ _))]
    | cons l2 ls2 =>
      unfold pySplitlines joinNL
      simp only [joinNLChars]
      rw [splitlinesAux_through l.data [] _ (hb l (List.mem_cons_self _ _))]
      simp only [List.reverse_nil, List.nil_append, List.map]
      have hgoal : (splitlinesAux (joinNLChars (l2 :: ls2)) []).map
          (fun ch => (⟨ch⟩ : String)) = l2 :: ls2 := by
        have := ih (fun x hx => hne x (List.mem_cons_of_mem _ hx))
          (fun x hx => hb x (List.mem_cons_of_mem _ hx))
        exact this
      rw [hgoal]

/-- unified_diff of no lines against one line. -/
theorem udl_nil_one (y : String) :
    unifiedDiffLines [] [y] = ["--- ", "+++ ", "@@ -0,0 +1 @@", consStr '+' y] := rfl

/-- unified_diff of one line against no lines. -/
theorem udl_one_nil (x : String) :
    unifiedDiffLines [x] [] = ["--- ", "+++ ", "@@ -1 +0,0 @@", consStr '-' x] := rfl

/-- unified_diff of two equal single lines is empty. -/
theorem udl_one_one_eq (x : String) : unifiedDiffLines [x] [x] = [] := by
  have hb2j : b2j [x] x = [0] := by
    show List.filter (fun i => decide (([x] : List String)[i]?.getD "" = x)) (List.range 1) = [0]
    simp [List.range_succ]
  have hdpi : dpInner 0 1 0 (fun _ => 0) [0] (fun _ => 0) (0, 0, 0) =
      ((fun j => if j = 0 then 1 else 0), (0, 0, 1)) := by
    rw [dpInner]
    norm_num
    rfl
  have hbest : dpOuter [x] (b2j [x]) 0 1 (List.range' 0 1) (fun _ => 0) (0, 0, 0) = (0, 0, 1) := by
    simp only [dpOuter]
    rw [show ([x] : List String).getD 0 "" = x from rfl, hb2j, hdpi]
  have hflm : findLongestMatch [x] [x] 0 1 0 1 = (0, 0, 1) := by
    simp only [findLongestMatch]
    rw [show (1 : Nat) - 0 = 1 from rfl, hbest]
    rfl
  have hmb : matchingBlocksAux [x] [x] 3 0 1 0 1 = [(0, 0, 1)] := by
    rw [matchingBlocksAux]
    simp only [hflm]
    norm_num
  have hblocks : getMatchingBlocks [x] [x] = [(0, 0, 1), (1, 1, 0)] := by
    unfold getMatchingBlocks
    simp only [List.length_singleton]
    rw [show (1 : Nat) + 1 + 1 = 3 from rfl, hmb]
    rfl
  have hops : getOpcodes [x] [x] = [⟨DTag.equal, 0, 1, 0, 1⟩] := by
    unfold getOpcodes
    rw [hblocks]
    rfl
  have hgo : getGroupedOpcodes [x] [x] = [] := by
    unfold getGroupedOpcodes
    rw [hops]
    decide
  unfold unifiedDiffLines
  rw [hgo]

/-- unified_diff of two distinct single lines: headers, hunk, one deletion
and one insertion. -/
theorem udl_one_one_ne (x y : String) (h : ¬ x = y) :
    unifiedDiffLines [x] [y] =
      ["--- ", "+++ ", "@@ -1 +1 @@", consStr '-' x, consStr '+' y] := by
  have hb2j : b2j [y] x = [] := by
    show List.filter (fun i => decide (([y] : List String)[i]?.getD "" = x)) (List.range 1) = []
    simp [List.range_succ]
    intro hh
    exact absurd hh.symm h
  have hbest : dpOuter [x] (b2j [y]) 0 1 (List.range' 0 1) (fun _ => 0) (0, 0, 0) = (0, 0, 0) := by
    simp only [dpOuter]
    rw [show ([x] : List String).getD 0 "" = x from rfl, hb2j]
    rfl
  have hfwd : extendFwdF [x] [y] 1 1 0 0 2 0 = 0 := by
    rw [extendFwdF]
    rw [if_neg (fun hc => h hc.2.2)]
  have hflm : findLongestMatch [x] [y] 0 1 0 1 = (0, 0, 0) := by
    simp only [findLongestMatch]
    rw [show (1 : Nat) - 0 = 1 from rfl, hbest]
    simp only [extendBack, extendFwd]
    rw [show (1 : Nat) + 1 = 2 from rfl]
    rw [hfwd]
  have hmb : matchingBlocksAux [x] [y] 3 0 1 0 1 = [] := by
    rw [matchingBlocksAux]
    simp only [hflm]
    norm_num
  have hblocks : getMatchingBlocks [x] [y] = [(1, 1, 0)] := by
    unfold getMatchingBlocks
    simp only [List.length_singleton]
    rw [show (1 : Nat) + 1 + 1 = 3 from rfl, hmb]
    rfl
  have hops : getOpcodes [x] [y] = [⟨DTag.replace, 0, 1, 0, 1⟩] := by
    unfold getOpcodes
    rw [hblocks]
    rfl
  have hgo : getGroupedOpcodes [x] [y] = [[⟨DTag.replace, 0, 1, 0, 1⟩]] := by
    unfold getGroupedOpcodes
    rw [hops]
    decide
  unfold unifiedDiffLines
  rw [hgo]
  rfl

/-- The magnitude of a rendered diff counts its filtered lines. -/
theorem magnitudeOf_joinNL (L : List String)
    (hne : ∀ l ∈ L, l.data ≠ [])
    (hb : ∀ l ∈ L, ∀ c ∈ l.data, isLineBoundary c = false) :
    magnitudeOf (joinNL L) = L.countP codeDiffFilter := by
  unfold magnitudeOf
  rw [pySplitlines_joinNL L hne hb]

/-- Whitespace collapsing leaves only non-whitespace characters and
spaces. -/
theorem collapseWsAux_mem :
    ∀ (l : List Char) (flag : Bool), ∀ c ∈ collapseWsAux flag l,
      isPyWs c = false ∨ c = ' ' := by
  intro l
  induction l with
  | nil => intro flag c hc; simp [collapseWsAux] at hc
  | cons d t ih =>
    intro flag c hc
    unfold collapseWsAux at hc
    by_cases hd : isPyWs d = true
    · rw [if_pos hd] at hc
      by_cases hf : flag = true
      · rw [if_pos hf] at hc
        exact ih true c hc
      · rw [if_neg hf] at hc
        rcases List.mem_cons.mp hc with h | h
        · right; exact h
        · exact ih true c h
    · rw [if_neg hd] at hc
      rcases List.mem_cons.mp hc with h | h
      · left; subst h; simpa using hd
      · exact ih false c h

/-- Every line-boundary character is whitespace. -/
theorem boundary_isPyWs (c : Char) (h : isLineBoundary c = true) : isPyWs c = true := by
  simp only [isLineBoundary, Bool.or_eq_true, decide_eq_true_eq] at h
  rcases h with ((((((((h | h) | h) | h) | h) | h) | h) | h) | h) | h <;> subst h <;> decide

/-- Stripping keeps a subset of the characters. -/
theorem stripWs_subset (l : List Char) (c : Char) (hc : c ∈ stripWs l) : c ∈ l := by
  unfold stripWs at hc
  rw [List.mem_reverse] at hc
  have h1 := (List.dropWhile_sublist (l := (l.dropWhile (fun c => isPyWs c)).reverse)
      (p := fun c => isPyWs c)).subset hc
  rw [List.mem_reverse] at h1
  exact (List.dropWhile_sublist (l := l) (p := fun c => isPyWs c)).subset h1

/-- The fetch_text normalization output contains no line-boundary
character. -/
theorem fetch_text_normalize_no_boundary (s : String) :
    ∀ c ∈ (fetch_text_normalize s).data, isLineBoundary c = false := by
  intro c hc
  have h1 : c ∈ stripWs (collapseWs s.data) := hc
  have h2 : c ∈ collapseWs s.data := stripWs_subset _ c h1
  have h3 := collapseWsAux_mem s.data false c h2
  rcases h3 with h | h
  · by_contra hb
    have hb2 : isLineBoundary c = true := by
      cases hx : isLineBoundary c
      · exact absurd hx hb
      · rfl
    rw [boundary_isPyWs c hb2] at h
    simp at h
  · subst h
    decide

/-- The first header line is not counted by the magnitude filter. -/
theorem codeDiffFilter_h1 : codeDiffFilter "--- " = false := by decide

/-- The second header line is not counted by the magnitude filter. -/
theorem codeDiffFilter_h2 : codeDiffFilter "+++ " = false := by decide

/-- An insertion hunk header is not counted by the magnitude filter. -/
theorem codeDiffFilter_hk1 : codeDiffFilter "@@ -0,0 +1 @@" = false := by decide

/-- A deletion hunk header is not counted by the magnitude filter. -/
theorem codeDiffFilter_hk2 : codeDiffFilter "@@ -1 +0,0 @@" = false := by decide

/-- A replacement hunk header is not counted by the magnitude filter. -/
theorem codeDiffFilter_hk3 : codeDiffFilter "@@ -1 +1 @@" = false := by decide

/-- On texts free of line-boundary characters the magnitude is at most 2
and the change is never meaningful. -/
theorem meaningful_delta_no_boundary_bound (a b : String)
    (hA : ∀ c ∈ a.data, isLineBoundary c = false)
    (hB : ∀ c ∈ b.data, isLineBoundary c = false) :
    (meaningful_delta a b).2.2 ≤ 2 ∧ (meaningful_delta a b).1 = false := by
  have hsa := pySplitlines_no_boundary a hA
  have hsb := pySplitlines_no_boundary b hB
  have hmag : magnitudeOf (unifiedDiffText a b) ≤ 2 := by
    unfold unifiedDiffText
    rw [hsa, hsb]
    by_cases ha0 : a.data = []
    · by_cases hb0 : b.data = []
      · rw [if_pos ha0, if_pos hb0]
        decide
      · rw [if_pos ha0, if_neg hb0, udl_nil_one]
        rw [magnitudeOf_joinNL]
        · simp [List.countP_cons, codeDiffFilter_h1, codeDiffFilter_h2, codeDiffFilter_hk1, codeDiffFilter_hk2, codeDiffFilter_hk3]
          split <;> omega
        · intro l hl
          simp only [List.mem_cons, List.not_mem_nil, or_false] at hl
          rcases hl with rfl | rfl | rfl | rfl
          · decide
          · decide
          · decide
          · exact List.cons_ne_nil _ _
        · intro l hl
          simp only [List.mem_cons, List.not_mem_nil, or_false] at hl
          rcases hl with rfl | rfl | rfl | rfl
          · decide
          · decide
          · decide
          · intro c hc
            rcases List.mem_cons.mp hc with rfl | hc2
            · decide
            · exact hB c hc2
    · by_cases hb0 : b.data = []
      · rw [if_neg ha0, if_pos hb0, udl_one_nil]
        rw [magnitudeOf_joinNL]
        · simp [List.countP_cons, codeDiffFilter_h1, codeDiffFilter_h2, codeDiffFilter_hk1, codeDiffFilter_hk2, codeDiffFilter_hk3]
          split <;> omega
        · intro l hl
          simp only [List.mem_cons, List.not_mem_nil, or_false] at hl
          rcases hl with rfl | rfl | rfl | rfl
          · decide
          · decide
          · decide
          · exact List.cons_ne_nil _ _
        · intro l hl
          simp only [List.mem_cons, List.not_mem_nil, or_false] at hl
          rcases hl with rfl | rfl | rfl | rfl
          · decide
          · decide
          · decide
          · intro c hc
            rcases List.mem_cons.mp hc with rfl | hc2
            · decide
            · exact hA c hc2
      · rw [if_neg ha0, if_neg hb0]
        by_cases hab : a = b
        · subst hab
          rw [udl_one_one_eq]
          decide
        · rw [udl_one_one_ne a b hab]
          rw [magnitudeOf_joinNL]
          · simp [List.countP_cons, codeDiffFilter_h1, codeDiffFilter_h2, codeDiffFilter_hk1, codeDiffFilter_hk2, codeDiffFilter_hk3]
            split <;> split <;> omega
          · intro l hl
            simp only [List.mem_cons, List.not_mem_nil, or_false] at hl
            rcases hl with rfl | rfl | rfl | rfl | rfl
            · decide
            · decide
            · decide
            · exact List.cons_ne_nil _ _
            · exact List.cons_ne_nil _ _
          · intro l hl
            simp only [List.mem_cons, List.not_mem_nil, or_false] at hl
            rcases hl with rfl | rfl | rfl | rfl | rfl
            · decide
            · decide
            · decide
            · intro c hc
              rcases List.mem_cons.mp hc with rfl | hc2
              · decide
              · exact hA c hc2
            · intro c hc
              rcases List.mem_cons.mp hc with rfl | hc2
              · decide
              · exact hB c hc2
  constructor
  · exact hmag
  · show (_ && _ && decide (8 < magnitudeOf (unifiedDiffText a b))) = false
    rw [decide_eq_false (by omega : ¬ 8 < magnitudeOf (unifiedDiffText a b))]
    rw [Bool.and_false]

/-- C2 (amended): for every pair of texts neither of which contains any
character that splitlines treats as a line boundary (the only form
fetch_text produces, since it collapses every whitespace run, line
boundaries included, to single spaces), meaningful_delta returns magnitude
at most 2 and flags nothing; consequently the composed fetch-then-evaluate
pipeline never flags any change as meaningful. -/
theorem single_line_inputs_never_meaningful :
    (∀ a b : String,
        (∀ c ∈ a.data, isLineBoundary c = false) →
        (∀ c ∈ b.data, isLineBoundary c = false) →
        (meaningful_delta a b).2.2 ≤ 2 ∧ (meaningful_delta a b).1 = false) ∧
    (∀ s t : String,
        (meaningful_delta (fetch_text_normalize s) (fetch_text_normalize t)).1 = false) := by
  constructor
  · exact meaningful_delta_no_boundary_bound
  · intro s t
    exact (meaningful_delta_no_boundary_bound _ _
      (fetch_text_normalize_no_boundary s) (fetch_text_normalize_no_boundary t)).2

/-- Witness for C2 at concrete single-line texts. -/
theorem single_line_inputs_never_meaningful_witness :
    (meaningful_delta "alpha beta" "gamma delta").2.2 ≤ 2 ∧
    (meaningful_delta "alpha beta" "gamma delta").1 = false :=
  single_line_inputs_never_meaningful.1 "alpha beta" "gamma delta" (by decide) (by decide)

/-- Every line splitlinesAux produces is free of line-boundary characters
whenever the accumulated partial line is; the bound n drives the strong
induction on the input length. -/
theorem splitlinesAux_lines_free :
    ∀ (n : Nat) (chars acc : List Char), chars.length ≤ n →
      (∀ c ∈ acc, isLineBoundary c = false) →
      ∀ ll ∈ splitlinesAux chars acc, ∀ c ∈ ll, isLineBoundary c = false := by
  intro n
  induction n with
  | zero =>
    intro chars acc hlen hacc ll hll c hc
    have : chars = [] := List.eq_nil_of_length_eq_zero (by omega)
    subst this
    rw [splitlinesAux.eq_1] at hll
    by_cases ha : acc = []
    · rw [if_pos ha] at hll
      simp at hll
    · rw [if_neg ha] at hll
      rcases List.mem_singleton.mp hll with rfl
      exact hacc c (List.mem_reverse.mp hc)
  | succ m ih =>
    intro chars acc hlen hacc ll hll c hc
    match chars with
    | [] =>
      rw [splitlinesAux.eq_1] at hll
      by_cases ha : acc = []
      · rw [if_pos ha] at hll
        simp at hll
      · rw [if_neg ha] at hll
        rcases List.mem_singleton.mp hll with rfl
        exact hacc c (List.mem_reverse.mp hc)
    | '\x0d' :: '\x0a' :: rest2 =>
      rw [splitlinesAux.eq_2] at hll
      rcases List.mem_cons.mp hll with rfl | h2
      · exact hacc c (List.mem_reverse.mp hc)
      · exact ih rest2 [] (by simp at hlen ⊢; omega) (by simp) ll h2 c hc
    | d :: rest =>
      by_cases hcrlf : d = '\x0d' ∧ ∃ r2, rest = '\x0a' :: r2
      · obtain ⟨hd, r2, hr⟩ := hcrlf
        subst hd
        subst hr
        rw [splitlinesAux.eq_2] at hll
        rcases List.mem_cons.mp hll with rfl | h2
        · exact hacc c (List.mem_reverse.mp hc)
        · exact ih r2 [] (by simp at hlen ⊢; omega) (by simp) ll h2 c hc
      · have hside : ∀ (r2 : List Char), d = '\x0d' → rest = '\x0a' :: r2 → False := by
          intro r2 h1 h2
          exact hcrlf ⟨h1, r2, h2⟩
        rw [splitlinesAux.eq_3 acc d rest hside] at hll
        by_cases hd : d = '\x0d'
        · rw [if_pos hd] at hll
          rcases List.mem_cons.mp hll with rfl | h2
          · exact hacc c (List.mem_reverse.mp hc)
          · exact ih rest [] (by simp at hlen ⊢; omega) (by simp) ll h2 c hc
        · rw [if_neg hd] at hll
          by_cases hbd : isLineBoundary d = true
          · rw [if_pos hbd] at hll
            rcases List.mem_cons.mp hll with rfl | h2
            · exact hacc c (List.mem_reverse.mp hc)
            · exact ih rest [] (by simp at hlen ⊢; omega) (by simp) ll h2 c hc
          · rw [if_neg hbd] at hll
            refine ih rest (d :: acc) (by simp at hlen ⊢; omega) ?_ ll hll c hc
            intro e he
            rcases List.mem_cons.mp he with rfl | he2
            · exact Bool.eq_false_iff.mpr hbd
            · exact hacc e he2

/-- Every element of str.splitlines contains no line-boundary character. -/
theorem pySplitlines_mem_nb (s : String) :
    ∀ l ∈ pySplitlines s, ∀ c ∈ l.data, isLineBoundary c = false := by
  intro l hl c hc
  unfold pySplitlines at hl
  rcases List.mem_map.mp hl with ⟨ll, hll, rfl⟩
  exact splitlinesAux_lines_free s.data.length s.data [] (le_refl _) (by simp) ll hll c hc

/-- Digit characters belong to the range-character set of hunk headers. -/
theorem decDigit_range (n : Nat) : isRangeChar (decDigit n) = true := by
  unfold decDigit
  have h10 : n % 10 = 0 ∨ n % 10 = 1 ∨ n % 10 = 2 ∨ n % 10 = 3 ∨ n % 10 = 4 ∨
      n % 10 = 5 ∨ n % 10 = 6 ∨ n % 10 = 7 ∨ n % 10 = 8 ∨ n % 10 = 9 := by omega
  rcases h10 with h|h|h|h|h|h|h|h|h|h <;> rw [h] <;> decide

/-- Decimal rendering of a natural number produces only range characters. -/
theorem natToDecAux_range :
    ∀ (fuel n : Nat) (acc : List Char), (∀ c ∈ acc, isRangeChar c = true) →
      ∀ c ∈ natToDecAux fuel n acc, isRangeChar c = true := by
  intro fuel
  induction fuel with
  | zero =>
    intro n acc hacc c hc
    rcases List.mem_cons.mp hc with rfl | h
    · exact decDigit_range n
    · exact hacc c h
  | succ f ih =>
    intro n acc hacc c hc
    rw [natToDecAux] at hc
    by_cases hn : n < 10
    · rw [if_pos hn] at hc
      rcases List.mem_cons.mp hc with rfl | h
      · exact decDigit_range n
      · exact hacc c h
    · rw [if_neg hn] at hc
      refine ih (n / 10) _ ?_ c hc
      intro d hd
      rcases List.mem_cons.mp hd with rfl | h
      · exact decDigit_range _
      · exact hacc d h

/-- The formatted range of a hunk header consists of range characters only. -/
theorem fmtRangeChars_range (i j : Nat) : ∀ c ∈ fmtRangeChars i j, isRangeChar c = true := by
  intro c hc
  simp only [fmtRangeChars] at hc
  split at hc
  · exact natToDecAux_range _ _ [] (by simp) c hc
  · rcases List.mem_append.mp hc with h | h
    · exact natToDecAux_range _ _ [] (by simp) c h
    · rcases List.mem_cons.mp h with rfl | h2
      · decide
      · exact natToDecAux_range _ _ [] (by simp) c h2

/-- Range characters, digits and the comma, are not line boundaries. -/
theorem rangeChar_not_boundary (c : Char) (h : isRangeChar c = true) :
    isLineBoundary c = false := by
  by_contra hb
  have hb2 : isLineBoundary c = true := by
    cases hx : isLineBoundary c
    · exact absurd hx hb
    · rfl
  simp only [isLineBoundary, Bool.or_eq_true, decide_eq_true_eq] at hb2
  rcases hb2 with ((((((((h2 | h2) | h2) | h2) | h2) | h2) | h2) | h2) | h2) | h2 <;>
    subst h2 <;> exact absurd h (by decide)

/-- A rendered hunk header line contains no line-boundary character when its
two ranges are made of range characters. -/
theorem hunkLine_no_boundary (f1 f2 : List Char)
    (h1 : ∀ c ∈ f1, isRangeChar c = true) (h2 : ∀ c ∈ f2, isRangeChar c = true) :
    ∀ c ∈ (hunkLine f1 f2).data, isLineBoundary c = false := by
  intro c hc
  have hc2 : c ∈ '@' :: '@' :: ' ' :: '-' :: (f1 ++ ' ' :: '+' :: (f2 ++ [' ', '@', '@'])) := hc
  rcases List.mem_cons.mp hc2 with rfl | hc3
  · decide
  rcases List.mem_cons.mp hc3 with rfl | hc4
  · decide
  rcases List.mem_cons.mp hc4 with rfl | hc5
  · decide
  rcases List.mem_cons.mp hc5 with rfl | hc6
  · decide
  rcases List.mem_append.mp hc6 with hf | hc7
  · exact rangeChar_not_boundary c (h1 c hf)
  rcases List.mem_cons.mp hc7 with rfl | hc8
  · decide
  rcases List.mem_cons.mp hc8 with rfl | hc9
  · decide
  rcases List.mem_append.mp hc9 with hf | hc10
  · exact rangeChar_not_boundary c (h2 c hf)
  rcases List.mem_cons.mp hc10 with rfl | hc11
  · decide
  rcases List.mem_cons.mp hc11 with rfl | hc12
  · decide
  rcases List.mem_singleton.mp hc12 with rfl
  decide

/-- A Python slice of a list only contains elements of the list. -/
theorem sliceL_subset (l : List String) (i j : Nat) : ∀ x ∈ sliceL l i j, x ∈ l := by
  intro x hx
  unfold sliceL at hx
  exact List.mem_of_mem_drop (List.mem_of_mem_take hx)

/-- Every line rendered for one opcode is a context or deleted line built
from a line of the left input, or an inserted line built from a line of the
right input. -/
theorem renderOpcode_mem (la lb : List String) (op : Opcode) (line : String)
    (h : line ∈ renderOpcode la lb op) :
    (∃ l ∈ la, line = consStr ' ' l ∨ line = consStr '-' l) ∨
    (∃ l ∈ lb, line = consStr '+' l) := by
  unfold renderOpcode at h
  split at h
  · rcases List.mem_map.mp h with ⟨l, hl, rfl⟩
    exact Or.inl ⟨l, sliceL_subset _ _ _ l hl, Or.inl rfl⟩
  · rcases List.mem_append.mp h with h2 | h2
    · rcases List.mem_map.mp h2 with ⟨l, hl, rfl⟩
      exact Or.inl ⟨l, sliceL_subset _ _ _ l hl, Or.inr rfl⟩
    · rcases List.mem_map.mp h2 with ⟨l, hl, rfl⟩
      exact Or.inr ⟨l, sliceL_subset _ _ _ l hl, rfl⟩
  · rcases List.mem_map.mp h with ⟨l, hl, rfl⟩
    exact Or.inl ⟨l, sliceL_subset _ _ _ l hl, Or.inr rfl⟩
  · rcases List.mem_map.mp h with ⟨l, hl, rfl⟩
    exact Or.inr ⟨l, sliceL_subset _ _ _ l hl, rfl⟩

/-- Every line rendered for a group of opcodes is the hunk header or one of
the per-opcode lines. -/
theorem renderGroup_mem (la lb : List String) (g : List Opcode) (line : String)
    (h : line ∈ renderGroup la lb g) :
    (∃ f1 f2, line = hunkLine f1 f2 ∧ (∀ c ∈ f1, isRangeChar c = true) ∧
        (∀ c ∈ f2, isRangeChar c = true)) ∨
    (∃ l ∈ la, line = consStr ' ' l ∨ line = consStr '-' l) ∨
    (∃ l ∈ lb, line = consStr '+' l) := by
  unfold renderGroup at h
  rcases List.mem_cons.mp h with rfl | h2
  · exact Or.inl ⟨_, _, rfl, fmtRangeChars_range _ _, fmtRangeChars_range _ _⟩
  · rcases List.mem_flatten.mp h2 with ⟨sub, hsub, hline⟩
    rcases List.mem_map.mp hsub with ⟨op, _, rfl⟩
    exact Or.inr (renderOpcode_mem la lb op line hline)

/-- startswith fails when the first characters differ. -/
theorem startsL_head_ne (p : Char) (ps : List Char) (d : Char) (ds : List Char) (h : p ≠ d) :
    startsL (p :: ps) (d :: ds) = false := by
  simp [startsL, h]

/-- startswith with equal first characters reduces to the tails. -/
theorem startsL_head_eq (p : Char) (ps ds : List Char) :
    startsL (p :: ps) (p :: ds) = startsL ps ds := by
  simp [startsL]

/-- On a hunk header line the magnitude filter of the code and the
changed-line predicate of the spec agree: both are false, since the line
starts with an at sign. -/
theorem filters_agree_hunk (f1 f2 : List Char) :
    codeDiffFilter (hunkLine f1 f2) =
      (pyStarts (hunkLine f1 f2) "+" || pyStarts (hunkLine f1 f2) "-") := by
  have hp : pyStarts (hunkLine f1 f2) "+" = false :=
    startsL_head_ne '+' [] '@' _ (by decide)
  have hm : pyStarts (hunkLine f1 f2) "-" = false :=
    startsL_head_ne '-' [] '@' _ (by decide)
  unfold codeDiffFilter
  rw [hp, hm]
  rfl

/-- On a context line both filters are false. -/
theorem filters_agree_space (l : String) :
    codeDiffFilter (consStr ' ' l) =
      (pyStarts (consStr ' ' l) "+" || pyStarts (consStr ' ' l) "-") := by
  have hp : pyStarts (consStr ' ' l) "+" = false :=
    startsL_head_ne '+' [] ' ' _ (by decide)
  have hm : pyStarts (consStr ' ' l) "-" = false :=
    startsL_head_ne '-' [] ' ' _ (by decide)
  unfold codeDiffFilter
  rw [hp, hm]
  rfl

/-- On a deleted line whose content does not itself start with two dashes,
both filters are true: the header exclusion of the code does not fire. -/
theorem filters_agree_minus (l : String) (h : pyStarts l "--" = false) :
    codeDiffFilter (consStr '-' l) =
      (pyStarts (consStr '-' l) "+" || pyStarts (consStr '-' l) "-") := by
  have hp : pyStarts (consStr '-' l) "+" = false :=
    startsL_head_ne '+' [] '-' _ (by decide)
  have hp3 : pyStarts (consStr '-' l) "+++" = false :=
    startsL_head_ne '+' ['+', '+'] '-' _ (by decide)
  have hm : pyStarts (consStr '-' l) "-" = true := by
    show startsL ['-'] ('-' :: l.data) = true
    rw [startsL_head_eq]
    rfl
  have hm3 : pyStarts (consStr '-' l) "---" = false := by
    show startsL ['-', '-', '-'] ('-' :: l.data) = false
    rw [startsL_head_eq]
    exact h
  unfold codeDiffFilter
  rw [hp, hp3, hm, hm3]
  rfl

/-- On an inserted line whose content does not start with two plus signs,
both filters are true. -/
theorem filters_agree_plus (l : String) (h : pyStarts l "++" = false) :
    codeDiffFilter (consStr '+' l) =
      (pyStarts (consStr '+' l) "+" || pyStarts (consStr '+' l) "-") := by
  have hm : pyStarts (consStr '+' l) "-" = false :=
    startsL_head_ne '-' [] '+' _ (by decide)
  have hm3 : pyStarts (consStr '+' l) "---" = false :=
    startsL_head_ne '-' ['-', '-'] '+' _ (by decide)
  have hp : pyStarts (consStr '+' l) "+" = true := by
    show startsL ['+'] ('+' :: l.data) = true
    rw [startsL_head_eq]
    rfl
  have hp3 : pyStarts (consStr '+' l) "+++" = false := by
    show startsL ['+', '+', '+'] ('+' :: l.data) = false
    rw [startsL_head_eq]
    exact h
  unfold codeDiffFilter
  rw [hp, hp3, hm, hm3]
  rfl

/-- On every rendered line of a group, the magnitude filter of the code
equals the changed-line predicate of the spec, provided no left line starts
with two dashes and no right line starts with two plus signs. -/
theorem filters_agree_rendered (la lb : List String)
    (hla : ∀ l ∈ la, pyStarts l "--" = false)
    (hlb : ∀ l ∈ lb, pyStarts l "++" = false)
    (g : List Opcode) (line : String) (h : line ∈ renderGroup la lb g) :
    codeDiffFilter line = (pyStarts line "+" || pyStarts line "-") := by
  rcases renderGroup_mem la lb g line h with ⟨f1, f2, rfl, _, _⟩ | ⟨l, hl, rfl | rfl⟩ | ⟨l, hl, rfl⟩
  · exact filters_agree_hunk f1 f2
  · exact filters_agree_space l
  · exact filters_agree_minus l (hla l hl)
  · exact filters_agree_plus l (hlb l hl)

/-- Every rendered line of a group is nonempty and free of line-boundary
characters when the input lines are. -/
theorem rendered_line_ok (la lb : List String)
    (hla : ∀ l ∈ la, ∀ c ∈ l.data, isLineBoundary c = false)
    (hlb : ∀ l ∈ lb, ∀ c ∈ l.data, isLineBoundary c = false)
    (g : List Opcode) (line : String) (h : line ∈ renderGroup la lb g) :
    line.data ≠ [] ∧ ∀ c ∈ line.data, isLineBoundary c = false := by
  rcases renderGroup_mem la lb g line h with ⟨f1, f2, rfl, h1, h2⟩ | ⟨l, hl, rfl | rfl⟩ | ⟨l, hl, rfl⟩
  · exact ⟨by simp [hunkLine], hunkLine_no_boundary f1 f2 h1 h2⟩
  · refine ⟨by simp [consStr], ?_⟩
    intro c hc
    rcases List.mem_cons.mp hc with rfl | hc2
    · decide
    · exact hla l hl c hc2
  · refine ⟨by simp [consStr], ?_⟩
    intro c hc
    rcases List.mem_cons.mp hc with rfl | hc2
    · decide
    · exact hla l hl c hc2
  · refine ⟨by simp [consStr], ?_⟩
    intro c hc
    rcases List.mem_cons.mp hc with rfl | hc2
    · decide
    · exact hlb l hl c hc2

/-- countP only depends on the values of the predicate on the list. -/
theorem countP_congr_on (p q : String → Bool) :
    ∀ (l : List String), (∀ x ∈ l, p x = q x) → l.countP p = l.countP q := by
  intro l
  induction l with
  | nil => intro _; rfl
  | cons x xs ih =>
    intro h
    have h1 := h x (List.mem_cons_self x xs)
    have h2 : xs.countP p = xs.countP q := ih (fun y hy => h y (List.mem_cons_of_mem x hy))
    rw [List.countP_cons, List.countP_cons, h1, h2]

/-- When grouping produces at least one group, unified_diff emits the two
file-header lines followed by the rendered groups. -/
theorem unifiedDiffLines_cons (la lb : List String) (g : List Opcode) (gs : List (List Opcode))
    (h : getGroupedOpcodes la lb = g :: gs) :
    unifiedDiffLines la lb =
      "--- " :: "+++ " :: ((g :: gs).map (renderGroup la lb)).flatten := by
  unfold unifiedDiffLines
  rw [h]

/-- C4 (amended): the magnitude returned by meaningful_delta equals the
number of addition or deletion lines of the returned diff artifact,
excluding only the two file-header lines, provided no line of the before
text starts with two dashes and no line of the after text starts with two
plus signs.  Without that proviso the claim fails: the code excludes every
line starting with three dashes or three plus signs, so content lines
whose text begins with two dashes or two plus signs are dropped from the
count. -/
theorem magnitude_eq_specMagnitude (a b : String)
    (ha : ∀ l ∈ pySplitlines a, pyStarts l "--" = false)
    (hb : ∀ l ∈ pySplitlines b, pyStarts l "++" = false) :
    (meaningful_delta a b).2.2 = specMagnitude ((meaningful_delta a b).2.1) := by
  show magnitudeOf (unifiedDiffText a b) = specMagnitude (unifiedDiffText a b)
  unfold unifiedDiffText
  cases hgs : getGroupedOpcodes (pySplitlines a) (pySplitlines b) with
  | nil =>
    rw [unifiedDiffLines]
    rw [hgs]
    rfl
  | cons g gs =>
    rw [unifiedDiffLines_cons _ _ g gs hgs]
    have hnb_a := pySplitlines_mem_nb a
    have hnb_b := pySplitlines_mem_nb b
    have hbody : ∀ line ∈ (((g :: gs).map
        (renderGroup (pySplitlines a) (pySplitlines b))).flatten),
        ∃ gop, line ∈ renderGroup (pySplitlines a) (pySplitlines b) gop := by
      intro line hline
      rcases List.mem_flatten.mp hline with ⟨sub, hsub, hl2⟩
      rcases List.mem_map.mp hsub with ⟨gop, _, rfl⟩
      exact ⟨gop, hl2⟩
    have hsplit : pySplitlines (joinNL ("--- " :: "+++ " ::
        ((g :: gs).map (renderGroup (pySplitlines a) (pySplitlines b))).flatten)) =
        "--- " :: "+++ " ::
        ((g :: gs).map (renderGroup (pySplitlines a) (pySplitlines b))).flatten := by
      have hhd1 : ∀ c ∈ ("--- " : String).data, isLineBoundary c = false := by decide
      have hhd2 : ∀ c ∈ ("+++ " : String).data, isLineBoundary c = false := by decide
      apply pySplitlines_joinNL
      · intro l hl
        rcases List.mem_cons.mp hl with rfl | hl2
        · decide
        rcases List.mem_cons.mp hl2 with rfl | hl3
        · decide
        rcases hbody l hl3 with ⟨gop, hgop⟩
        exact (rendered_line_ok _ _ hnb_a hnb_b gop l hgop).1
      · intro l hl
        rcases List.mem_cons.mp hl with rfl | hl2
        · exact hhd1
        rcases List.mem_cons.mp hl2 with rfl | hl3
        · exact hhd2
        rcases hbody l hl3 with ⟨gop, hgop⟩
        exact (rendered_line_ok _ _ hnb_a hnb_b gop l hgop).2
    unfold magnitudeOf specMagnitude
    rw [hsplit]
    rw [List.countP_cons, List.countP_cons]
    have hh1 : codeDiffFilter "--- " = false := by decide
    have hh2 : codeDiffFilter "+++ " = false := by decide
    rw [hh1, hh2]
    simp only [List.drop_succ_cons, List.drop_zero, if_false, Nat.add_zero]
    apply countP_congr_on
    intro line hline
    rcases hbody line hline with ⟨gop, hgop⟩
    exact filters_agree_rendered _ _ ha hb gop line hgop

/-- Witness for the amended C4 theorem at a concrete two-line pair. -/
theorem magnitude_eq_specMagnitude_witness :
    (meaningful_delta "alpha\nbeta" "alpha\ngamma").2.2 =
      specMagnitude ((meaningful_delta "alpha\nbeta" "alpha\ngamma").2.1) :=
  magnitude_eq_specMagnitude "alpha\nbeta" "alpha\ngamma" (by decide) (by decide)

end BreakingChange
